import Mathlib

/-!
# Verification of the PRISM-2D graph consolidation engine

Shallow embedding of `src/utils/graphUtils.ts` (string similarity scorer,
entity identity resolver, consolidation engine) together with proofs of the
spec's claims about it.

Modelling conventions:
* JS numbers are modelled as `ℚ`: the only numeric operations performed by
  this core are `Math.min` / `Math.max` / comparison, which are exact, so no
  floating-point rounding is observable.
* A JS `Map<string,string>` is modelled as `String → Option String` with
  pointwise update (`Map.set` overwrites; `Map.get` returns the last value).
* A JS `Set` built by insertion is modelled as a duplicate-free list keeping
  the first occurrence of each element (`jsSetList`), matching the insertion
  order of `new Set([...])` / `Array.from`.
* The TS union `string | ResearchNode` used for link endpoints is the
  inductive `Endpoint`; the `typeof l.source === 'object' ? l.source.id :
  l.source` extraction is `Endpoint.rawId`.
* `forEach` loops with accumulated state are structural recursions over the
  input list (`processNodes`, `processLinks`).
-/

namespace Prism

/-- JS `Set` built by insertion, materialised in insertion order: keep the first
occurrence of each element (JS `Set` semantics). -/
def jsSetList {α : Type} [DecidableEq α] (l : List α) : List α :=
  l.foldl (fun acc x => if x ∈ acc then acc else acc ++ [x]) []

-- --- DATA MODEL (src/types/prism.ts) ---

/-- Provenance block `researchMetadata` of `ResearchNode`. -/
structure ResearchMetadata where
  provider : String
  model : String
  timestamp : ℚ
  deriving Repr, DecidableEq

/-- Metrics block of `ResearchNode`. -/
structure NodeMetrics where
  significance : ℚ
  deriving Repr, DecidableEq

/-- Entity record `ResearchNode` of `src/types/prism.ts`: a single knowledge-graph entity.
Optional TS fields (`tags?`, `aliases?`, `researchMetadata?`, `x?`, `y?`)
are `Option`s. -/
structure ResearchNode where
  id : String
  label : String
  type : String
  summary : String
  groupLabel : String
  tags : Option (List String)
  aliases : Option (List String)
  researchMetadata : Option ResearchMetadata
  metrics : NodeMetrics
  x : Option ℚ
  y : Option ℚ
  deriving Repr, DecidableEq

/-- A link endpoint: `string | ResearchNode` ("ID during transit, Object Ref
during render"). -/
inductive Endpoint where
  | str : String → Endpoint
  | node : ResearchNode → Endpoint
  deriving Repr, DecidableEq

/-- Raw-id extraction `typeof e === 'object' ? (e as ResearchNode).id : e`
used uniformly by the consolidation engine. -/
def Endpoint.rawId : Endpoint → String
  | .str s => s
  | .node n => n.id

/-- Edge record `OptimizedConnection` of `src/types/prism.ts`: a directed, weighted,
labelled edge. -/
structure OptimizedConnection where
  source : Endpoint
  target : Endpoint
  relation : String
  weight : ℚ
  deriving Repr, DecidableEq

-- --- SIMILARITY ALGORITHMS (src/utils/graphUtils.ts) ---

/-- Normalization `s.toLowerCase().replace(/[^a-z0-9]/g, '')`: lowercase,
then keep only ASCII letters and digits. (Lean's `Char.toLower` is
ASCII-only; every string occurring in the proofs below is ASCII.) -/
def normalize (s : String) : String :=
  ⟨(s.data.map Char.toLower).filter fun c =>
    (97 ≤ c.toNat && c.toNat ≤ 122) || (48 ≤ c.toNat && c.toNat ≤ 57)⟩

/-- All consecutive character pairs of a string (the loop
`for i in 0..length-2: substring(i, i+2)` of `bigrams`). -/
def bigramPairs : List Char → List (Char × Char)
  | a :: b :: rest => (a, b) :: bigramPairs (b :: rest)
  | _ => []

/-- Scorer `calculateStringSimilarity` of `src/utils/graphUtils.ts`: Jaccard
coefficient over bigram sets of the normalized strings, with the early
returns of the source (`s1 === s2` → 1, either normalized string empty → 0,
either bigram set empty → 0). -/
def calculateStringSimilarity (str1 str2 : String) : ℚ :=
  let s1 := normalize str1
  let s2 := normalize str2
  if s1 = s2 then 1
  else if s1 = "" ∨ s2 = "" then 0
  else
    let set1 := jsSetList (bigramPairs s1.data)
    let set2 := jsSetList (bigramPairs s2.data)
    if set1.length = 0 ∨ set2.length = 0 then 0
    else
      let intersection := set1.filter fun x => decide (x ∈ set2)
      let union := jsSetList (set1 ++ set2)
      (intersection.length : ℚ) / (union.length : ℚ)

/-- Resolver `isSameEntity` of `src/utils/graphUtils.ts`: exact id, case-insensitive
label, fuzzy label similarity > 0.85, or alias overlap (case-insensitive
equality or similarity > 0.9). The TS guard `nodeA.aliases && nodeB.aliases`
tests for `undefined` only (an empty array is truthy), hence the `Option`
match. -/
def isSameEntity (nodeA nodeB : ResearchNode) : Bool :=
  if nodeA.id = nodeB.id then true
  else if nodeA.label.toLower = nodeB.label.toLower then true
  else if decide ((85 : ℚ) / 100 < calculateStringSimilarity nodeA.label nodeB.label) then true
  else
    match nodeA.aliases, nodeB.aliases with
    | some aliasesA, some aliasesB =>
        aliasesA.any fun aliasA => aliasesB.any fun aliasB =>
          decide (aliasA.toLower = aliasB.toLower) ||
            decide ((9 : ℚ) / 10 < calculateStringSimilarity aliasA aliasB)
    | _, _ => false

-- --- CONSOLIDATION ENGINE (src/utils/graphUtils.ts) ---

/-- Result record of `consolidateGraphData`. -/
structure ConsolidationResult where
  nodes : List ResearchNode
  links : List OptimizedConnection
  mergedCount : Nat
  deriving Repr, DecidableEq

/-- The merge-logic block executed when a duplicate is found: union of tags,
union of aliases (JS `Set` insertion order), significance boosted to
`Math.min(10, Math.max(existing, new))`; every other field of the existing
node is kept. -/
def mergeNode (existingMatch newNode : ResearchNode) : ResearchNode :=
  let boosted : ℚ :=
    min 10 (max existingMatch.metrics.significance newNode.metrics.significance)
  { existingMatch with
    tags := some (jsSetList (existingMatch.tags.getD [] ++ newNode.tags.getD [])),
    aliases := some (jsSetList (existingMatch.aliases.getD [] ++ newNode.aliases.getD [])),
    metrics := { significance := boosted } }

/-- Search `finalNodes.find(existing => isSameEntity(existing, newNode))` followed by
the in-place mutation of the match: returns the updated list together with the
matched node's id, or `none` when no node of the list matches. -/
def mergeFirstMatch : List ResearchNode → ResearchNode → Option (List ResearchNode × String)
  | [], _ => none
  | x :: xs, e =>
    if isSameEntity x e then some (mergeNode x e :: xs, x.id)
    else
      match mergeFirstMatch xs e with
      | some (xs', i) => some (x :: xs', i)
      | none => none

/-- Loop state of `consolidateGraphData`: the accumulated entity list, the
`New_ID → Existing_ID` map, and the merge counter. -/
structure ConsState where
  finalNodes : List ResearchNode
  nodeMap : String → Option String
  mergedCount : Nat

/-- One iteration of the `newNodes.forEach` loop: merge into the first match
(recording `nodeMap[newNode.id] = existingMatch.id` and bumping the counter)
or append the node (mapping its id to itself). -/
def processNode (st : ConsState) (newNode : ResearchNode) : ConsState :=
  match mergeFirstMatch st.finalNodes newNode with
  | some (nodes', matchedId) =>
      { finalNodes := nodes',
        nodeMap := fun k => if k = newNode.id then some matchedId else st.nodeMap k,
        mergedCount := st.mergedCount + 1 }
  | none =>
      { finalNodes := st.finalNodes ++ [newNode],
        nodeMap := fun k => if k = newNode.id then some newNode.id else st.nodeMap k,
        mergedCount := st.mergedCount }

/-- The whole `newNodes.forEach` loop. -/
def processNodes : ConsState → List ResearchNode → ConsState
  | st, [] => st
  | st, e :: rest => processNodes (processNode st e) rest

/-- The directed signature `${s}|${t}` of a link, after raw-id extraction. -/
def linkSig (l : OptimizedConnection) : String :=
  l.source.rawId ++ "|" ++ l.target.rawId

/-- One iteration of the `newLinks.forEach` loop over the state
(signature set, accepted links). A link is accepted when both raw endpoint
ids resolve through the map to truthy (non-empty) ids, the resolved ids
differ, and neither orientation signature is already present; its endpoints
are rewritten to the resolved ids and its forward signature is recorded. -/
def processLink (nodeMap : String → Option String)
    (acc : List String × List OptimizedConnection) (link : OptimizedConnection) :
    List String × List OptimizedConnection :=
  let rawSource := link.source.rawId
  let rawTarget := link.target.rawId
  match nodeMap rawSource, nodeMap rawTarget with
  | some resolvedSource, some resolvedTarget =>
    if resolvedSource ≠ "" ∧ resolvedTarget ≠ "" ∧ resolvedSource ≠ resolvedTarget then
      let signatureA := resolvedSource ++ "|" ++ resolvedTarget
      let signatureB := resolvedTarget ++ "|" ++ resolvedSource
      if signatureA ∉ acc.1 ∧ signatureB ∉ acc.1 then
        (acc.1 ++ [signatureA],
         acc.2 ++ [{ source := Endpoint.str resolvedSource,
                     target := Endpoint.str resolvedTarget,
                     relation := link.relation, weight := link.weight }])
      else acc
    else acc
  | _, _ => acc

/-- The whole `newLinks.forEach` loop. -/
def processLinks (nodeMap : String → Option String) :
    List String × List OptimizedConnection → List OptimizedConnection →
    List String × List OptimizedConnection
  | acc, [] => acc
  | acc, l :: rest => processLinks nodeMap (processLink nodeMap acc l) rest

/-- Engine `consolidateGraphData` of `src/utils/graphUtils.ts`: merge a batch of new
nodes into the existing node list, then re-wire and filter the new links
against the signature set seeded from the existing links. -/
def consolidateGraphData (existingNodes : List ResearchNode)
    (existingLinks : List OptimizedConnection)
    (newNodes : List ResearchNode)
    (newLinks : List OptimizedConnection) : ConsolidationResult :=
  let st := processNodes
    { finalNodes := existingNodes, nodeMap := fun _ => none, mergedCount := 0 } newNodes
  let linkSignature := existingLinks.map linkSig
  let processed := processLinks st.nodeMap (linkSignature, []) newLinks
  { nodes := st.finalNodes,
    links := existingLinks ++ processed.2,
    mergedCount := st.mergedCount }

end Prism

namespace Prism

-- --- GENERAL LEMMAS ABOUT THE NODE LOOP ---

/-- Membership in a JS-style set list is membership in the underlying list. -/
lemma mem_jsSetList {α : Type} [DecidableEq α] (l : List α) (x : α) :
    x ∈ jsSetList l ↔ x ∈ l := by
  suffices h : ∀ (l : List α) (acc : List α),
      x ∈ l.foldl (fun acc y => if y ∈ acc then acc else acc ++ [y]) acc ↔ x ∈ acc ∨ x ∈ l by
    simpa [jsSetList] using (h l [])
  intro l
  induction l with
  | nil => simp
  | cons a t ih =>
      intro acc
      simp only [List.foldl_cons]
      by_cases ha : a ∈ acc
      · rw [if_pos ha, ih]
        constructor
        · rintro (h | h) <;> simp [h]
        · rintro (h | h)
          · exact Or.inl h
          · rcases List.mem_cons.mp h with rfl | h
            · exact Or.inl ha
            · exact Or.inr h
      · rw [if_neg ha, ih]
        simp only [List.mem_append, List.mem_cons, List.mem_singleton]
        tauto

/-- The first identity rule: equal ids make `isSameEntity` fire. -/
lemma isSameEntity_of_id_eq (x e : ResearchNode) (h : x.id = e.id) :
    isSameEntity x e = true := by
  simp [isSameEntity, h]

/-- Merging never changes the matched node's id. -/
@[simp] lemma mergeNode_id (m e : ResearchNode) : (mergeNode m e).id = m.id := rfl

/-- A successful in-place merge leaves the id sequence of the list untouched. -/
lemma mergeFirstMatch_map_id (l : List ResearchNode) (e : ResearchNode)
    (l' : List ResearchNode) (i : String) (h : mergeFirstMatch l e = some (l', i)) :
    l'.map (·.id) = l.map (·.id) := by
  induction l generalizing l' i with
  | nil => simp [mergeFirstMatch] at h
  | cons x xs ih =>
      by_cases hx : isSameEntity x e
      · simp [mergeFirstMatch, hx] at h
        rcases h with ⟨h1, h2⟩
        simp [← h1]
      · rcases hr : mergeFirstMatch xs e with _ | ⟨xs', j⟩
        · simp [mergeFirstMatch, hx, hr] at h
        · simp [mergeFirstMatch, hx, hr] at h
          rcases h with ⟨h1, h2⟩
          simp [← h1, ih xs' j hr]

/-- The recorded canonical id of a successful merge is an id of the scanned list. -/
lemma mergeFirstMatch_matchedId_mem (l : List ResearchNode) (e : ResearchNode)
    (l' : List ResearchNode) (i : String) (h : mergeFirstMatch l e = some (l', i)) :
    i ∈ l.map (·.id) := by
  induction l generalizing l' i with
  | nil => simp [mergeFirstMatch] at h
  | cons x xs ih =>
      by_cases hx : isSameEntity x e
      · simp [mergeFirstMatch, hx] at h
        simp [h.2]
      · rcases hr : mergeFirstMatch xs e with _ | ⟨xs', j⟩
        · simp [mergeFirstMatch, hx, hr] at h
        · simp [mergeFirstMatch, hx, hr] at h
          have hmem := h.2 ▸ ih xs' j hr
          simp [hmem]

/-- When nothing in the list matches, the scan fails. -/
lemma mergeFirstMatch_eq_none (l : List ResearchNode) (e : ResearchNode)
    (h : ∀ x ∈ l, isSameEntity x e = false) : mergeFirstMatch l e = none := by
  induction l with
  | nil => rfl
  | cons x xs ih =>
      have hx := h x (by simp)
      simp [mergeFirstMatch, hx, ih fun y hy => h y (by simp [hy])]

/-- When some element of the list matches, the scan succeeds. -/
lemma mergeFirstMatch_isSome (l : List ResearchNode) (e : ResearchNode)
    (h : ∃ x ∈ l, isSameEntity x e = true) : ∃ p, mergeFirstMatch l e = some p := by
  induction l with
  | nil => simp at h
  | cons x xs ih =>
      by_cases hx : isSameEntity x e
      · exact ⟨(mergeNode x e :: xs, x.id), by simp [mergeFirstMatch, hx]⟩
      · rcases h with ⟨y, hy, hsame⟩
        rcases List.mem_cons.mp hy with rfl | hmem
        · simp [hx] at hsame
        · rcases ih ⟨y, hmem, hsame⟩ with ⟨⟨l', i⟩, hp⟩
          exact ⟨(x :: l', i), by simp [mergeFirstMatch, hx, hp]⟩

/-- Scanning past a prefix in which nothing matches. -/
lemma mergeFirstMatch_append_of_none (l₁ l₂ : List ResearchNode) (e : ResearchNode)
    (h : ∀ x ∈ l₁, isSameEntity x e = false) :
    mergeFirstMatch (l₁ ++ l₂) e =
      (mergeFirstMatch l₂ e).map fun p => (l₁ ++ p.1, p.2) := by
  induction l₁ with
  | nil => simp [Option.map_id]
  | cons x xs ih =>
      have hx := h x (by simp)
      have ihx := ih fun y hy => h y (by simp [hy])
      rcases hl : mergeFirstMatch l₂ e with _ | ⟨l', i⟩
      · rw [hl] at ihx
        simp [mergeFirstMatch, hx, ihx]
      · rw [hl] at ihx
        simp [mergeFirstMatch, hx, ihx]

/-- One loop iteration adds exactly one to (entity count + merge counter). -/
lemma processNode_count (st : ConsState) (e : ResearchNode) :
    (processNode st e).finalNodes.length + (processNode st e).mergedCount
      = st.finalNodes.length + st.mergedCount + 1 := by
  unfold processNode
  rcases h : mergeFirstMatch st.finalNodes e with _ | ⟨l', i⟩
  · simp; omega
  · have := congrArg List.length (mergeFirstMatch_map_id _ _ _ _ h)
    simp at this
    simp [this]
    omega

/-- One loop iteration bumps the merge counter by at most one. -/
lemma processNode_mergedCount_le (st : ConsState) (e : ResearchNode) :
    (processNode st e).mergedCount ≤ st.mergedCount + 1 := by
  unfold processNode
  rcases h : mergeFirstMatch st.finalNodes e with _ | ⟨l', i⟩ <;> simp

/-- Loop version of `processNode_count`. -/
lemma processNodes_count (l : List ResearchNode) (st : ConsState) :
    (processNodes st l).finalNodes.length + (processNodes st l).mergedCount
      = st.finalNodes.length + st.mergedCount + l.length := by
  induction l generalizing st with
  | nil => simp [processNodes]
  | cons e rest ih =>
      have h1 := processNode_count st e
      have h2 := ih (processNode st e)
      simp only [processNodes, List.length_cons] at h2 ⊢
      omega

/-- Loop version of `processNode_mergedCount_le`. -/
lemma processNodes_mergedCount_le (l : List ResearchNode) (st : ConsState) :
    (processNodes st l).mergedCount ≤ st.mergedCount + l.length := by
  induction l generalizing st with
  | nil => simp [processNodes]
  | cons e rest ih =>
      have h1 := processNode_mergedCount_le st e
      have h2 := ih (processNode st e)
      simp only [processNodes, List.length_cons] at h2 ⊢
      omega

/-- Converse of `mergeFirstMatch_eq_none`: a failed scan means no element matched. -/
lemma mergeFirstMatch_none_forall (l : List ResearchNode) (e : ResearchNode)
    (h : mergeFirstMatch l e = none) : ∀ x ∈ l, isSameEntity x e = false := by
  induction l with
  | nil => simp
  | cons x xs ih =>
      by_cases hx : isSameEntity x e
      · simp [mergeFirstMatch, hx] at h
      · rcases hr : mergeFirstMatch xs e with _ | ⟨xs', j⟩
        · intro y hy
          rcases List.mem_cons.mp hy with rfl | hmem
          · simpa using hx
          · exact ih hr y hmem
        · simp [mergeFirstMatch, hx, hr] at h

/-- One loop iteration preserves duplicate-freeness of the id sequence. -/
lemma processNode_nodup (st : ConsState) (e : ResearchNode)
    (h : (st.finalNodes.map (·.id)).Nodup) :
    ((processNode st e).finalNodes.map (·.id)).Nodup := by
  unfold processNode
  rcases hm : mergeFirstMatch st.finalNodes e with _ | ⟨l', i⟩
  · have hall := mergeFirstMatch_none_forall st.finalNodes e hm
    have hnotmem : e.id ∉ st.finalNodes.map (·.id) := by
      intro hmem
      obtain ⟨x, hx, hid⟩ := List.mem_map.mp hmem
      have := isSameEntity_of_id_eq x e hid
      rw [hall x hx] at this
      exact Bool.false_ne_true this
    simp [List.nodup_append, h, List.disjoint_singleton, hnotmem]
  · simpa [mergeFirstMatch_map_id _ _ _ _ hm] using h

/-- Loop version of `processNode_nodup`. -/
lemma processNodes_nodup (l : List ResearchNode) (st : ConsState)
    (h : (st.finalNodes.map (·.id)).Nodup) :
    ((processNodes st l).finalNodes.map (·.id)).Nodup := by
  induction l generalizing st with
  | nil => simpa [processNodes] using h
  | cons e rest ih => exact ih (processNode st e) (processNode_nodup st e h)

/-- When every remaining incoming entity's id is already an id of the current
result list, every iteration takes the merge branch: the id sequence is
unchanged and the counter grows by the number of processed entities. -/
lemma processNodes_all_match (l : List ResearchNode) (st : ConsState)
    (h : ∀ e ∈ l, e.id ∈ st.finalNodes.map (·.id)) :
    (processNodes st l).finalNodes.map (·.id) = st.finalNodes.map (·.id) ∧
    (processNodes st l).mergedCount = st.mergedCount + l.length := by
  induction l generalizing st with
  | nil => simp [processNodes]
  | cons e rest ih =>
      have he : e.id ∈ st.finalNodes.map (·.id) := h e (by simp)
      obtain ⟨x, hx, hid⟩ := List.mem_map.mp he
      obtain ⟨⟨l', i⟩, hp⟩ :=
        mergeFirstMatch_isSome st.finalNodes e ⟨x, hx, isSameEntity_of_id_eq x e hid⟩
      have hmap := mergeFirstMatch_map_id _ _ _ _ hp
      have hnodes : (processNode st e).finalNodes = l' := by simp [processNode, hp]
      have hcnt : (processNode st e).mergedCount = st.mergedCount + 1 := by
        simp [processNode, hp]
      have hrest := ih (processNode st e) (by
        intro y hy
        rw [hnodes, hmap]
        exact h y (by simp [hy]))
      simp only [processNodes] at hrest ⊢
      refine ⟨?_, ?_⟩
      · rw [hrest.1, hnodes, hmap]
      · rw [hrest.2, hcnt, List.length_cons]
        omega

-- --- CLAIM THEOREMS (counting and id invariants) ---

/-- C9: every incoming entity is exclusively either merged (counted) or
appended (not counted): `mergedCount` is at most the number of incoming
entities, and the output entity count is (existing + incoming − merged). -/
theorem consolidate_count_conservation (existingNodes : List ResearchNode)
    (existingLinks : List OptimizedConnection) (newNodes : List ResearchNode)
    (newLinks : List OptimizedConnection) :
    (consolidateGraphData existingNodes existingLinks newNodes newLinks).mergedCount
        ≤ newNodes.length ∧
    (consolidateGraphData existingNodes existingLinks newNodes newLinks).nodes.length
        = existingNodes.length + newNodes.length
          - (consolidateGraphData existingNodes existingLinks newNodes newLinks).mergedCount := by
  have h1 : (processNodes ⟨existingNodes, fun _ => none, 0⟩ newNodes).finalNodes.length
        + (processNodes ⟨existingNodes, fun _ => none, 0⟩ newNodes).mergedCount
      = existingNodes.length + newNodes.length := by
    simpa using processNodes_count newNodes ⟨existingNodes, fun _ => none, 0⟩
  have h2 : (processNodes ⟨existingNodes, fun _ => none, 0⟩ newNodes).mergedCount
      ≤ newNodes.length := by
    simpa using processNodes_mergedCount_le newNodes ⟨existingNodes, fun _ => none, 0⟩
  simp only [consolidateGraphData]
  exact ⟨h2, by omega⟩

/-- C5: if the existing entity ids are pairwise distinct, so are the output
entity ids — `consolidate` never produces a repeated id. -/
theorem consolidate_nodup_ids (existingNodes : List ResearchNode)
    (existingLinks : List OptimizedConnection) (newNodes : List ResearchNode)
    (newLinks : List OptimizedConnection)
    (h : (existingNodes.map (·.id)).Nodup) :
    ((consolidateGraphData existingNodes existingLinks newNodes newLinks).nodes.map
      (·.id)).Nodup := by
  simp only [consolidateGraphData]
  exact processNodes_nodup newNodes ⟨existingNodes, fun _ => none, 0⟩ (by simpa using h)

/-- C6: re-ingesting a graph's own entities and relations merges every
incoming entity (`mergedCount` = number of incoming entities) and leaves the
entity count unchanged. -/
theorem consolidate_reingest_idempotent (nodes : List ResearchNode)
    (links : List OptimizedConnection) :
    (consolidateGraphData nodes links nodes links).mergedCount = nodes.length ∧
    (consolidateGraphData nodes links nodes links).nodes.length = nodes.length := by
  have h := processNodes_all_match nodes ⟨nodes, fun _ => none, 0⟩
    (fun e he => List.mem_map_of_mem _ he)
  simp only [consolidateGraphData]
  refine ⟨by simpa using h.2, ?_⟩
  have := congrArg List.length h.1
  simpa using this

-- --- GENERAL LEMMAS ABOUT THE LINK LOOP ---

/-- Each loop iteration only ever extends the id sequence of the result list. -/
lemma processNode_ids_extends (st : ConsState) (e : ResearchNode) :
    ∃ extra, (processNode st e).finalNodes.map (·.id)
      = st.finalNodes.map (·.id) ++ extra := by
  unfold processNode
  rcases hm : mergeFirstMatch st.finalNodes e with _ | ⟨l', i⟩
  · exact ⟨[e.id], by simp⟩
  · exact ⟨[], by simp [mergeFirstMatch_map_id _ _ _ _ hm]⟩

/-- Loop version of `processNode_ids_extends`. -/
lemma processNodes_ids_extends (l : List ResearchNode) (st : ConsState) :
    ∃ extra, (processNodes st l).finalNodes.map (·.id)
      = st.finalNodes.map (·.id) ++ extra := by
  induction l generalizing st with
  | nil => exact ⟨[], by simp [processNodes]⟩
  | cons e rest ih =>
      obtain ⟨e1, h1⟩ := processNode_ids_extends st e
      obtain ⟨e2, h2⟩ := ih (processNode st e)
      exact ⟨e1 ++ e2, by simp [processNodes, h2, h1]⟩

/-- Every id recorded in the resolution map is an id of the current result
list, and this survives each loop iteration. -/
lemma processNode_nodeMap_sound (st : ConsState) (e : ResearchNode)
    (h : ∀ k v, st.nodeMap k = some v → v ∈ st.finalNodes.map (·.id)) :
    ∀ k v, (processNode st e).nodeMap k = some v
      → v ∈ (processNode st e).finalNodes.map (·.id) := by
  unfold processNode
  rcases hm : mergeFirstMatch st.finalNodes e with _ | ⟨l', i⟩
  · intro k v hv
    simp only at hv
    by_cases hk : k = e.id
    · rw [if_pos hk] at hv
      simp at hv
      simp [← hv]
    · rw [if_neg hk] at hv
      simp only [List.map_append]
      exact List.mem_append_left _ (h k v hv)
  · intro k v hv
    simp only at hv
    have hmap := mergeFirstMatch_map_id _ _ _ _ hm
    by_cases hk : k = e.id
    · rw [if_pos hk] at hv
      simp at hv
      simp only [← hv, hmap]
      exact mergeFirstMatch_matchedId_mem _ _ _ _ hm
    · rw [if_neg hk] at hv
      simp only [hmap]
      exact h k v hv

/-- Loop version of `processNode_nodeMap_sound`. -/
lemma processNodes_nodeMap_sound (l : List ResearchNode) (st : ConsState)
    (h : ∀ k v, st.nodeMap k = some v → v ∈ st.finalNodes.map (·.id)) :
    ∀ k v, (processNodes st l).nodeMap k = some v
      → v ∈ (processNodes st l).finalNodes.map (·.id) := by
  induction l generalizing st with
  | nil => exact h
  | cons e rest ih => exact ih (processNode st e) (processNode_nodeMap_sound st e h)

/-- Case analysis for one iteration of the link loop: either the accumulator
is unchanged (endpoint unresolvable, falsy resolved id, self-loop, or
duplicate signature), or the link is accepted with rewritten endpoints and
its forward signature recorded. -/
lemma processLink_eq_or (nm : String → Option String)
    (acc : List String × List OptimizedConnection) (link : OptimizedConnection) :
    processLink nm acc link = acc ∨
    ∃ rs rt, nm link.source.rawId = some rs ∧ nm link.target.rawId = some rt ∧
      rs ≠ rt ∧ (rs ++ "|" ++ rt) ∉ acc.1 ∧ (rt ++ "|" ++ rs) ∉ acc.1 ∧
      processLink nm acc link =
        (acc.1 ++ [rs ++ "|" ++ rt],
         acc.2 ++ [⟨Endpoint.str rs, Endpoint.str rt, link.relation, link.weight⟩]) := by
  unfold processLink
  rcases h1 : nm link.source.rawId with _ | rs
  · left; simp [h1]
  rcases h2 : nm link.target.rawId with _ | rt
  · left; simp [h1, h2]
  by_cases hne : rs ≠ "" ∧ rt ≠ "" ∧ rs ≠ rt
  · by_cases hsig : (rs ++ "|" ++ rt) ∉ acc.1 ∧ (rt ++ "|" ++ rs) ∉ acc.1
    · right
      refine ⟨rs, rt, rfl, rfl, hne.2.2, hsig.1, hsig.2, ?_⟩
      simp [h1, h2, hne, hsig]
    · left; simp [h1, h2, hne, hsig]
  · left; simp [h1, h2, hne]

/-- Accepted links only ever have endpoints drawn from the resolution map's
values; links already in the accumulator keep their endpoints. -/
lemma processLinks_endpoint_sound (nm : String → Option String) (I : List String)
    (hnm : ∀ k v, nm k = some v → v ∈ I)
    (nl : List OptimizedConnection) (acc : List String × List OptimizedConnection)
    (hacc : ∀ c ∈ acc.2, c.source.rawId ∈ I ∧ c.target.rawId ∈ I) :
    ∀ c ∈ (processLinks nm acc nl).2, c.source.rawId ∈ I ∧ c.target.rawId ∈ I := by
  induction nl generalizing acc with
  | nil => exact hacc
  | cons link rest ih =>
      simp only [processLinks]
      apply ih
      rcases processLink_eq_or nm acc link with heq | ⟨rs, rt, hs, ht, hne, hA, hB, heq⟩
      · rw [heq]; exact hacc
      · rw [heq]
        intro c hc
        rcases List.mem_append.mp hc with hc | hc
        · exact hacc c hc
        · rcases List.mem_singleton.mp hc with rfl
          exact ⟨hnm _ _ hs, hnm _ _ ht⟩

-- --- CLAIM THEOREM: no dangling edges ---

/-- C4: if every existing relation references existing entity ids, then every
relation in the output references entity ids present in the output entity
list — no dangling edges are ever stored. -/
theorem consolidate_no_dangling (existingNodes : List ResearchNode)
    (existingLinks : List OptimizedConnection) (newNodes : List ResearchNode)
    (newLinks : List OptimizedConnection)
    (h : ∀ c ∈ existingLinks,
      c.source.rawId ∈ existingNodes.map (·.id) ∧
      c.target.rawId ∈ existingNodes.map (·.id)) :
    ∀ c ∈ (consolidateGraphData existingNodes existingLinks newNodes newLinks).links,
      c.source.rawId
        ∈ (consolidateGraphData existingNodes existingLinks newNodes newLinks).nodes.map
          (·.id) ∧
      c.target.rawId
        ∈ (consolidateGraphData existingNodes existingLinks newNodes newLinks).nodes.map
          (·.id) := by
  simp only [consolidateGraphData]
  intro c hc
  set st := processNodes ⟨existingNodes, fun _ => none, 0⟩ newNodes with hst
  have hnm : ∀ k v, st.nodeMap k = some v → v ∈ st.finalNodes.map (·.id) := by
    apply processNodes_nodeMap_sound
    intro k v hv
    simp at hv
  have hext := processNodes_ids_extends newNodes ⟨existingNodes, fun _ => none, 0⟩
  obtain ⟨extra, hextra⟩ := hext
  have hsub : ∀ x, x ∈ existingNodes.map (·.id) → x ∈ st.finalNodes.map (·.id) := by
    intro x hx
    rw [hextra]
    exact List.mem_append_left _ hx
  rcases List.mem_append.mp hc with hc | hc
  · exact ⟨hsub _ (h c hc).1, hsub _ (h c hc).2⟩
  · exact processLinks_endpoint_sound st.nodeMap (st.finalNodes.map (·.id)) hnm
      newLinks (existingLinks.map linkSig, []) (by simp) c hc

-- --- UNDIRECTED DUPLICATE DETECTION ---

/-- Two relations connect the same unordered pair of entity ids (after raw-id
extraction), regardless of direction. -/
def samePair (l1 l2 : OptimizedConnection) : Prop :=
  (l1.source.rawId = l2.source.rawId ∧ l1.target.rawId = l2.target.rawId) ∨
  (l1.source.rawId = l2.target.rawId ∧ l1.target.rawId = l2.source.rawId)

instance (l1 l2 : OptimizedConnection) : Decidable (samePair l1 l2) := by
  unfold samePair
  infer_instance

/-- A relation on the same unordered pair as an accepted link carries one of
its two orientation signatures. -/
lemma samePair_linkSig (c : OptimizedConnection) (rs rt : String)
    (h : samePair c ⟨Endpoint.str rs, Endpoint.str rt, "", 0⟩) :
    linkSig c = rs ++ "|" ++ rt ∨ linkSig c = rt ++ "|" ++ rs := by
  rcases h with ⟨h1, h2⟩ | ⟨h1, h2⟩
  · left
    unfold linkSig
    rw [h1, h2]
    rfl
  · right
    unfold linkSig
    rw [h1, h2]
    rfl

/-- `samePair` only depends on the endpoint ids, not on label or weight. -/
lemma samePair_congr_right (c d d' : OptimizedConnection)
    (hs : d.source.rawId = d'.source.rawId) (ht : d.target.rawId = d'.target.rawId) :
    samePair c d ↔ samePair c d' := by
  unfold samePair
  rw [hs, ht]

/-- Invariant of the link loop: if every link so far carries its signature in
the signature set and the accumulated list has pairwise-distinct unordered
pairs, both facts survive the whole loop. -/
lemma processLinks_nodup_pairs (nm : String → Option String)
    (nl : List OptimizedConnection) (base : List OptimizedConnection)
    (acc : List String × List OptimizedConnection)
    (h1 : ∀ c ∈ base ++ acc.2, linkSig c ∈ acc.1)
    (h2 : (base ++ acc.2).Pairwise fun a b => ¬ samePair a b) :
    (base ++ (processLinks nm acc nl).2).Pairwise fun a b => ¬ samePair a b := by
  induction nl generalizing acc with
  | nil => exact h2
  | cons link rest ih =>
      simp only [processLinks]
      rcases processLink_eq_or nm acc link with heq | ⟨rs, rt, hs, ht, hne, hA, hB, heq⟩
      · rw [heq]
        exact ih acc h1 h2
      · rw [heq]
        set c : OptimizedConnection :=
          ⟨Endpoint.str rs, Endpoint.str rt, link.relation, link.weight⟩ with hc
        have hnotdup : ∀ d ∈ base ++ acc.2, ¬ samePair d c := by
          intro d hd hpair
          have hsig : linkSig d = rs ++ "|" ++ rt ∨ linkSig d = rt ++ "|" ++ rs := by
            apply samePair_linkSig d rs rt
            rwa [samePair_congr_right d c ⟨Endpoint.str rs, Endpoint.str rt, "", 0⟩ rfl rfl] at hpair
          have hmem := h1 d hd
          rcases hsig with hsig | hsig
          · exact hA (hsig ▸ hmem)
          · exact hB (hsig ▸ hmem)
        apply ih (acc.1 ++ [rs ++ "|" ++ rt], acc.2 ++ [c])
        · intro d hd
          simp only [← List.append_assoc] at hd
          rcases List.mem_append.mp hd with hd | hd
          · exact List.mem_append_left _ (h1 d hd)
          · rcases List.mem_singleton.mp hd with rfl
            simp [linkSig, hc, Endpoint.rawId]
        · simp only [← List.append_assoc]
          rw [List.pairwise_append]
          refine ⟨h2, List.pairwise_singleton _ _, ?_⟩
          intro a ha b hb
          rcases List.mem_singleton.mp hb with rfl
          exact hnotdup a ha

-- concrete nodes and links for the reversed-duplicate scenario of C3

/-- Existing entity with id jfk of the spec's duplicate-edge scenario. -/
def jfkNode : ResearchNode :=
  { id := "jfk", label := "JFK", type := "Person", summary := "S", groupLabel := "Person",
    tags := none, aliases := none, researchMetadata := none,
    metrics := { significance := 9 }, x := none, y := none }

/-- Existing entity with id usa of the spec's duplicate-edge scenario. -/
def usaNode : ResearchNode :=
  { id := "usa", label := "USA", type := "Location", summary := "S", groupLabel := "Location",
    tags := none, aliases := none, researchMetadata := none,
    metrics := { significance := 8 }, x := none, y := none }

/-- Existing relation jfk → usa. -/
def jfkLeadsUsa : OptimizedConnection :=
  { source := Endpoint.str "jfk", target := Endpoint.str "usa",
    relation := "LEADER_OF", weight := 1 }

/-- Incoming relation usa → jfk: same unordered pair, reversed direction,
different predicate label. -/
def usaGovernedByJfk : OptimizedConnection :=
  { source := Endpoint.str "usa", target := Endpoint.str "jfk",
    relation := "GOVERNED_BY", weight := 1 }

/-- C3: when no two existing relations connect the same unordered endpoint
pair, no two output relations do either — the first edge wins and every later
relation on the same unordered pair is dropped; in particular the spec's
reversed-pair scenario (incoming usa → jfk against existing jfk → usa) leaves
the relation list unchanged. -/
theorem consolidate_no_duplicate_unordered_pairs (existingNodes : List ResearchNode)
    (existingLinks : List OptimizedConnection) (newNodes : List ResearchNode)
    (newLinks : List OptimizedConnection)
    (h : existingLinks.Pairwise fun a b => ¬ samePair a b) :
    ((consolidateGraphData existingNodes existingLinks newNodes newLinks).links.Pairwise
      fun a b => ¬ samePair a b) ∧
    (consolidateGraphData [jfkNode, usaNode] [jfkLeadsUsa] [jfkNode, usaNode]
      [usaGovernedByJfk]).links = [jfkLeadsUsa] := by
  constructor
  · simp only [consolidateGraphData]
    apply processLinks_nodup_pairs
    · intro c hc
      simp only [List.append_nil] at hc
      exact List.mem_map_of_mem _ hc
    · simpa using h
  · with_unfolding_all decide

/-- Closed witness for C3 at a concrete input. -/
theorem consolidate_no_duplicate_unordered_pairs_witness :
    ((consolidateGraphData [jfkNode, usaNode] [jfkLeadsUsa] [jfkNode, usaNode]
      [usaGovernedByJfk]).links.Pairwise fun a b => ¬ samePair a b) :=
  (consolidate_no_duplicate_unordered_pairs [jfkNode, usaNode] [jfkLeadsUsa]
    [jfkNode, usaNode] [usaGovernedByJfk]
    (List.pairwise_singleton _ _)).1

/-- First of two incoming duplicates used by the C8 witness. -/
def dupEntityA : ResearchNode :=
  { id := "cw1", label := "Cold War", type := "Event", summary := "S", groupLabel := "Event",
    tags := some ["history"], aliases := none, researchMetadata := none,
    metrics := { significance := 6 }, x := none, y := none }

/-- Second of two incoming duplicates used by the C8 witness. -/
def dupEntityB : ResearchNode :=
  { id := "cw2", label := "Cold War", type := "Event", summary := "S2", groupLabel := "Event",
    tags := some ["conflict"], aliases := none, researchMetadata := none,
    metrics := { significance := 7 }, x := none, y := none }

-- --- CLAIM THEOREMS: merge metadata and intra-batch duplicates ---

/-- C7: a merge unions the tag and alias sets (so neither shrinks), boosts
significance to `min(10, max(m, e))` (never a decrease while `m`'s score is
at most 10), and alters no other field of the matched entity. -/
theorem mergeNode_spec (m e : ResearchNode) :
    (∀ t, t ∈ (mergeNode m e).tags.getD [] ↔ t ∈ m.tags.getD [] ∨ t ∈ e.tags.getD []) ∧
    (∀ t, t ∈ (mergeNode m e).aliases.getD []
      ↔ t ∈ m.aliases.getD [] ∨ t ∈ e.aliases.getD []) ∧
    (mergeNode m e).metrics.significance
      = min 10 (max m.metrics.significance e.metrics.significance) ∧
    (m.metrics.significance ≤ 10 →
      m.metrics.significance ≤ (mergeNode m e).metrics.significance) ∧
    (mergeNode m e).id = m.id ∧ (mergeNode m e).label = m.label ∧
    (mergeNode m e).type = m.type ∧ (mergeNode m e).summary = m.summary ∧
    (mergeNode m e).groupLabel = m.groupLabel ∧ (mergeNode m e).x = m.x ∧
    (mergeNode m e).y = m.y := by
  refine ⟨?_, ?_, rfl, ?_, rfl, rfl, rfl, rfl, rfl, rfl, rfl⟩
  · intro t
    simp [mergeNode, mem_jsSetList]
  · intro t
    simp [mergeNode, mem_jsSetList]
  · intro h
    have : (mergeNode m e).metrics.significance
        = min 10 (max m.metrics.significance e.metrics.significance) := rfl
    rw [this]
    exact le_min h (le_trans (le_max_left _ _) (le_refl _))

/-- Closed witness for C7: merging usa-data into the jfk entity keeps its
label and does not lower its significance. -/
theorem mergeNode_spec_witness :
    jfkNode.metrics.significance ≤ (mergeNode jfkNode usaNode).metrics.significance ∧
    (mergeNode jfkNode usaNode).label = jfkNode.label :=
  ⟨(mergeNode_spec jfkNode usaNode).2.2.2.1 (by with_unfolding_all decide),
   (mergeNode_spec jfkNode usaNode).2.2.2.2.2.1⟩

/-- Projections of one loop iteration in the append branch. -/
lemma processNode_fields_none (st : ConsState) (e : ResearchNode)
    (h : mergeFirstMatch st.finalNodes e = none) :
    (processNode st e).finalNodes = st.finalNodes ++ [e] ∧
    (processNode st e).mergedCount = st.mergedCount := by
  simp [processNode, h]

/-- Projections of one loop iteration in the merge branch. -/
lemma processNode_fields_some (st : ConsState) (e : ResearchNode)
    (l' : List ResearchNode) (i : String)
    (h : mergeFirstMatch st.finalNodes e = some (l', i)) :
    (processNode st e).finalNodes = l' ∧
    (processNode st e).mergedCount = st.mergedCount + 1 := by
  simp [processNode, h]

/-- C8: two incoming entities that duplicate each other but nothing existing:
the first is appended, the second merges into it (the scan covers entities
added earlier in the same batch), `mergedCount` is 1, and the entity count
grows by exactly 1. -/
theorem consolidate_intra_batch_duplicate (existingNodes : List ResearchNode)
    (existingLinks newLinks : List OptimizedConnection) (a b : ResearchNode)
    (ha : ∀ x ∈ existingNodes, isSameEntity x a = false)
    (hb : ∀ x ∈ existingNodes, isSameEntity x b = false)
    (hab : isSameEntity a b = true) :
    (consolidateGraphData existingNodes existingLinks [a, b] newLinks).nodes
      = existingNodes ++ [mergeNode a b] ∧
    (consolidateGraphData existingNodes existingLinks [a, b] newLinks).mergedCount = 1 ∧
    (consolidateGraphData existingNodes existingLinks [a, b] newLinks).nodes.length
      = existingNodes.length + 1 := by
  simp only [consolidateGraphData, processNodes]
  set st0 : ConsState := ⟨existingNodes, fun _ => none, 0⟩ with hst0
  have h1 : mergeFirstMatch st0.finalNodes a = none := mergeFirstMatch_eq_none _ _ ha
  obtain ⟨f1, c1⟩ := processNode_fields_none st0 a h1
  have h2 : mergeFirstMatch (processNode st0 a).finalNodes b
      = some (existingNodes ++ [mergeNode a b], a.id) := by
    rw [f1]
    show mergeFirstMatch (existingNodes ++ [a]) b = _
    rw [mergeFirstMatch_append_of_none existingNodes [a] b hb]
    simp [mergeFirstMatch, hab]
  obtain ⟨f2, c2⟩ := processNode_fields_some (processNode st0 a) b _ _ h2
  refine ⟨f2, ?_, ?_⟩
  · rw [c2, c1]
  · rw [f2]
    simp

/-- Closed witness for C8: two same-labelled incoming entities against an
unrelated existing graph produce one merge and one appended entity. -/
theorem consolidate_intra_batch_duplicate_witness :
    (consolidateGraphData [usaNode] [] [dupEntityA, dupEntityB] []).nodes
      = [usaNode] ++ [mergeNode dupEntityA dupEntityB] ∧
    (consolidateGraphData [usaNode] [] [dupEntityA, dupEntityB] []).mergedCount = 1 ∧
    (consolidateGraphData [usaNode] [] [dupEntityA, dupEntityB] []).nodes.length
      = [usaNode].length + 1 :=
  consolidate_intra_batch_duplicate [usaNode] [] [] dupEntityA dupEntityB
    (by with_unfolding_all decide) (by with_unfolding_all decide)
    (by with_unfolding_all decide)

-- --- CLAIM THEOREMS: similarity scorer ---

/-- Counterexample to C2 as stated: the source returns 1.0 whenever the two
normalized strings are identical, including two different strings that both
normalize to the empty string, where the claim demands 0.0. -/
theorem calculateStringSimilarity_empty_counterexample :
    calculateStringSimilarity "!" "?" = 1 ∧
    normalize "!" = "" ∧ normalize "?" = "" ∧ ("!" : String) ≠ "?" := by
  with_unfolding_all decide

/-- C2 (amended): similarity is 1.0 whenever the normalized strings are
identical — including two empty normalizations, regardless of whether the
original strings were equal — and 0.0 whenever the normalized strings differ
and either is empty; in particular the Berlin Wall example scores 1.0. -/
theorem calculateStringSimilarity_normalized_eq (a b : String) :
    (normalize a = normalize b → calculateStringSimilarity a b = 1) ∧
    (normalize a ≠ normalize b → (normalize a = "" ∨ normalize b = "") →
      calculateStringSimilarity a b = 0) ∧
    calculateStringSimilarity "Berlin Wall" "berlin-wall" = 1 := by
  refine ⟨?_, ?_, by with_unfolding_all decide⟩
  · intro h
    simp only [calculateStringSimilarity]
    rw [if_pos h]
  · intro hne hemp
    simp only [calculateStringSimilarity]
    rw [if_neg hne, if_pos hemp]

/-- Closed witness for C2 (amended) at concrete inputs. -/
theorem calculateStringSimilarity_normalized_eq_witness :
    calculateStringSimilarity "ab" "A-b!" = 1 ∧ calculateStringSimilarity "!" "x" = 0 :=
  ⟨(calculateStringSimilarity_normalized_eq "ab" "A-b!").1 (by with_unfolding_all decide),
   (calculateStringSimilarity_normalized_eq "!" "x").2.1 (by with_unfolding_all decide)
     (Or.inl (by with_unfolding_all decide))⟩

-- --- CLAIM THEOREM: endpoint resolution drops references to existing-only ids ---

/-- Existing entity of the C1 failing input (in the graph, not in the batch). -/
def existingOnlyNode : ResearchNode :=
  { id := "e1", label := "ab", type := "T", summary := "S", groupLabel := "G",
    tags := none, aliases := none, researchMetadata := none,
    metrics := { significance := 5 }, x := none, y := none }

/-- Incoming entity of the C1 failing input (unrelated to the existing one). -/
def incomingBatchNode : ResearchNode :=
  { id := "n1", label := "xy", type := "T", summary := "S", groupLabel := "G",
    tags := none, aliases := none, researchMetadata := none,
    metrics := { significance := 5 }, x := none, y := none }

/-- Incoming relation from the incoming entity to the existing-only entity. -/
def relToExisting : OptimizedConnection :=
  { source := Endpoint.str "n1", target := Endpoint.str "e1",
    relation := "REL", weight := 1 }

/-- C1 evaluated at the failing input: both endpoint ids of the incoming
relation are ids of entities in the merged entity list, yet the relation is
dropped at the resolution step — the resolution map only contains incoming
entity ids, so a reference to an existing-only entity never resolves,
contradicting the claim (and the source's own comment) that a relation is
kept whenever both endpoints exist in the final graph. -/
theorem consolidate_drops_relation_to_existing_entity :
    relToExisting.source.rawId
      ∈ (consolidateGraphData [existingOnlyNode] [] [incomingBatchNode]
          [relToExisting]).nodes.map (·.id) ∧
    relToExisting.target.rawId
      ∈ (consolidateGraphData [existingOnlyNode] [] [incomingBatchNode]
          [relToExisting]).nodes.map (·.id) ∧
    (consolidateGraphData [existingOnlyNode] [] [incomingBatchNode]
      [relToExisting]).links = [] := by
  with_unfolding_all decide

-- --- CLAIM THEOREM: pipe character makes edge signatures ambiguous ---

/-- Existing entity with the plain id a. -/
def pipeNodeA : ResearchNode :=
  { id := "a", label := "ab", type := "T", summary := "S", groupLabel := "G",
    tags := none, aliases := none, researchMetadata := none,
    metrics := { significance := 5 }, x := none, y := none }

/-- Existing entity whose id contains the signature separator. -/
def pipeNodeBC : ResearchNode :=
  { id := "b|c", label := "cd", type := "T", summary := "S", groupLabel := "G",
    tags := none, aliases := none, researchMetadata := none,
    metrics := { significance := 5 }, x := none, y := none }

/-- Incoming entity whose id contains the signature separator. -/
def pipeNodeAB : ResearchNode :=
  { id := "a|b", label := "ef", type := "T", summary := "S", groupLabel := "G",
    tags := none, aliases := none, researchMetadata := none,
    metrics := { significance := 5 }, x := none, y := none }

/-- Incoming entity with the plain id c. -/
def pipeNodeC : ResearchNode :=
  { id := "c", label := "gh", type := "T", summary := "S", groupLabel := "G",
    tags := none, aliases := none, researchMetadata := none,
    metrics := { significance := 5 }, x := none, y := none }

/-- Existing relation a → b|c, whose signature is the string a|b|c. -/
def pipeExistingLink : OptimizedConnection :=
  { source := Endpoint.str "a", target := Endpoint.str "b|c",
    relation := "R", weight := 1 }

/-- Incoming relation a|b → c, whose signature is also the string a|b|c. -/
def pipeIncomingLink : OptimizedConnection :=
  { source := Endpoint.str "a|b", target := Endpoint.str "c",
    relation := "S", weight := 1 }

/-- C10: with ids containing the separator, the concatenated signatures of
two relations on different unordered pairs collide: the incoming relation
a|b → c is dropped as a duplicate of the existing a → b|c although their
endpoint pairs differ — removing the existing relation makes the same
incoming relation survive, so its drop is due only to the signature
collision. -/
theorem consolidate_pipe_signature_collision :
    (consolidateGraphData [pipeNodeA, pipeNodeBC] [pipeExistingLink]
      [pipeNodeAB, pipeNodeC] [pipeIncomingLink]).links = [pipeExistingLink] ∧
    ¬ samePair pipeExistingLink pipeIncomingLink ∧
    (consolidateGraphData [pipeNodeA, pipeNodeBC] []
      [pipeNodeAB, pipeNodeC] [pipeIncomingLink]).links.length = 1 := by
  with_unfolding_all decide

-- --- CLOSED WITNESSES for the general invariants ---

/-- Closed witness for C4 at a concrete input and a concrete output relation. -/
theorem consolidate_no_dangling_witness :
    jfkLeadsUsa.source.rawId
      ∈ (consolidateGraphData [jfkNode, usaNode] [jfkLeadsUsa] [] []).nodes.map (·.id) ∧
    jfkLeadsUsa.target.rawId
      ∈ (consolidateGraphData [jfkNode, usaNode] [jfkLeadsUsa] [] []).nodes.map (·.id) :=
  consolidate_no_dangling [jfkNode, usaNode] [jfkLeadsUsa] [] []
    (by with_unfolding_all decide) jfkLeadsUsa (by with_unfolding_all decide)

/-- Closed witness for C5 at a concrete input. -/
theorem consolidate_nodup_ids_witness :
    ((consolidateGraphData [jfkNode, usaNode] [] [jfkNode] []).nodes.map (·.id)).Nodup :=
  consolidate_nodup_ids [jfkNode, usaNode] [] [jfkNode] []
    (by with_unfolding_all decide)

end Prism
